import Mathlib

/-!
Verification of the `torch::fft` dispatch header
(`torch/csrc/api/include/torch/fft.h`).

The header itself is six inline wrappers, each delegating to one external
engine call `torch::fft_<variant>(self, n, dim, norm)`.  The wrappers are
embedded here exactly as written, parameterized over the engine.  The
engine operations are not part of the source tree, so their observable
contract (argument resolution, error taxonomy, shape and element-kind
algebra, and the exact value semantics of the one-dimensional transforms)
is modelled from the specification; every such definition is marked
`Modelled from the spec:` in its documentation.
-/

namespace TorchFFT

/-- Element kind of a tensor: real valued (floating point) or complex valued. -/
inductive DType where
  | real
  | complex
deriving DecidableEq

/-- Shape-and-kind view of a tensor: the list of extents of its axes and its
element kind. -/
structure Tensor where
  shape : List Nat
  dtype : DType
deriving DecidableEq

/-- Modelled from the spec: the error taxonomy of the dispatch contract --
shape error (dim out of range), invalid-argument error (non-positive n or
unrecognized normalization symbol), type error (element kind mismatch). -/
inductive FFTError where
  | shapeError
  | invalidArgError
  | typeError
deriving DecidableEq

/-- The external DFT engine consumed by the header: one operation per variant,
with the exact argument list of the `torch::fft_<variant>` calls in `fft.h`.
A call either raises one of the dispatch errors or returns a new tensor. -/
structure FFTEngine where
  fft_fft : Tensor → Option Int → Int → Option String → Except FFTError Tensor
  fft_ifft : Tensor → Option Int → Int → Option String → Except FFTError Tensor
  fft_rfft : Tensor → Option Int → Int → Option String → Except FFTError Tensor
  fft_irfft : Tensor → Option Int → Int → Option String → Except FFTError Tensor
  fft_hfft : Tensor → Option Int → Int → Option String → Except FFTError Tensor
  fft_ihfft : Tensor → Option Int → Int → Option String → Except FFTError Tensor

/-- `torch::fft::fft` from `fft.h`: pass-through to the engine call
`torch::fft_fft`, with the C++ default arguments `n = nullopt`, `dim = -1`,
`norm = nullopt`. -/
def fft (E : FFTEngine) (self : Tensor) (n : Option Int := none)
    (dim : Int := -1) (norm : Option String := none) : Except FFTError Tensor :=
  E.fft_fft self n dim norm

/-- `torch::fft::ifft` from `fft.h`: pass-through to `torch::fft_ifft`. -/
def ifft (E : FFTEngine) (self : Tensor) (n : Option Int := none)
    (dim : Int := -1) (norm : Option String := none) : Except FFTError Tensor :=
  E.fft_ifft self n dim norm

/-- `torch::fft::rfft` from `fft.h`: pass-through to `torch::fft_rfft`. -/
def rfft (E : FFTEngine) (self : Tensor) (n : Option Int := none)
    (dim : Int := -1) (norm : Option String := none) : Except FFTError Tensor :=
  E.fft_rfft self n dim norm

/-- `torch::fft::irfft` from `fft.h`: pass-through to `torch::fft_irfft`. -/
def irfft (E : FFTEngine) (self : Tensor) (n : Option Int := none)
    (dim : Int := -1) (norm : Option String := none) : Except FFTError Tensor :=
  E.fft_irfft self n dim norm

/-- `torch::fft::hfft` from `fft.h`: pass-through to `torch::fft_hfft`. -/
def hfft (E : FFTEngine) (self : Tensor) (n : Option Int := none)
    (dim : Int := -1) (norm : Option String := none) : Except FFTError Tensor :=
  E.fft_hfft self n dim norm

/-- `torch::fft::ihfft` from `fft.h`: pass-through to `torch::fft_ihfft`. -/
def ihfft (E : FFTEngine) (self : Tensor) (n : Option Int := none)
    (dim : Int := -1) (norm : Option String := none) : Except FFTError Tensor :=
  E.fft_ihfft self n dim norm

/-- Modelled from the spec: the three recognized normalization symbols. -/
inductive Norm where
  | forward
  | backward
  | ortho
deriving DecidableEq

/-- Modelled from the spec: recognition of a supplied normalization symbol;
any string other than the three recognized ones is rejected. -/
def parseNormSym (s : String) : Option Norm :=
  if s = "forward" then some Norm.forward
  else if s = "backward" then some Norm.backward
  else if s = "ortho" then some Norm.ortho
  else none

/-- Modelled from the spec: resolution of the optional normalization argument:
absence selects backward; otherwise the symbol must be recognized. -/
def parseNorm : Option String → Option Norm
  | none => some Norm.backward
  | some s => parseNormSym s

/-- Modelled from the spec: a negative dimension index counts from the last
axis, so it is shifted by the rank. -/
def wrapDim (rank : Nat) (dim : Int) : Int :=
  if dim < 0 then dim + rank else dim

/-- Modelled from the spec: dimension resolution: negative indices count from
the last axis, and the resolved index must satisfy `0 ≤ d < rank`. -/
def resolveDim (rank : Nat) (dim : Int) : Option Nat :=
  if 0 ≤ wrapDim rank dim ∧ wrapDim rank dim < rank then
    some (wrapDim rank dim).toNat
  else none

/-- Modelled from the spec: the fixed per-variant configuration: required
input element kind, produced output element kind, and whether the input or
output along the transformed axis is a onesided Hermitian half. -/
structure Variant where
  inputKind : DType
  outputKind : DType
  onesidedInput : Bool
  onesidedOutput : Bool
deriving DecidableEq

/-- Modelled from the spec: configuration of `fft` (complex to complex). -/
def fftVariant : Variant := ⟨DType.complex, DType.complex, false, false⟩

/-- Modelled from the spec: configuration of `ifft` (complex to complex). -/
def ifftVariant : Variant := ⟨DType.complex, DType.complex, false, false⟩

/-- Modelled from the spec: configuration of `rfft` (real in, onesided complex out). -/
def rfftVariant : Variant := ⟨DType.real, DType.complex, false, true⟩

/-- Modelled from the spec: configuration of `irfft` (onesided complex in, real out). -/
def irfftVariant : Variant := ⟨DType.complex, DType.real, true, false⟩

/-- Modelled from the spec: configuration of `hfft` (onesided complex in, real out). -/
def hfftVariant : Variant := ⟨DType.complex, DType.real, true, false⟩

/-- Modelled from the spec: configuration of `ihfft` (real in, onesided complex out). -/
def ihfftVariant : Variant := ⟨DType.real, DType.complex, false, true⟩

/-- Modelled from the spec: the resolved engine invocation of dispatch step 5
(resolved length, resolved axis, resolved normalization) together with the
output tensor the engine produces for it. -/
structure EngineCall where
  n : Nat
  dim : Nat
  norm : Norm
  out : Tensor
deriving DecidableEq

/-- Modelled from the spec: the per-variant sizing rule along the transformed
dimension: `n/2 + 1` for a onesided output, `n` otherwise. -/
def outLenFor (v : Variant) (n : Nat) : Nat :=
  if v.onesidedOutput then n / 2 + 1 else n

/-- Modelled from the spec: dispatch steps 2 to 5 once a supplied length has
been validated: resolve the dimension (else shape error), default the length
to the input extent along the resolved dimension, resolve the normalization
symbol (else invalid-argument error), check the input element kind (else type
error), and produce the engine call; the output tensor has the shape of the
input with the extent along the resolved dimension replaced by the sizing
rule of the variant and the element kind of the variant. -/
def dispatchResolved (v : Variant) (t : Tensor) (nv : Option Nat) (dim : Int)
    (norm? : Option String) : Except FFTError EngineCall :=
  match resolveDim t.shape.length dim with
  | none => Except.error FFTError.shapeError
  | some d =>
    match parseNorm norm? with
    | none => Except.error FFTError.invalidArgError
    | some nm =>
      if t.dtype ≠ v.inputKind then Except.error FFTError.typeError
      else
        Except.ok ⟨nv.getD (t.shape.getD d 0), d, nm,
          ⟨t.shape.set d (outLenFor v (nv.getD (t.shape.getD d 0))),
           v.outputKind⟩⟩

/-- Modelled from the spec: the shared argument-resolution algorithm of the
engine operations.  A supplied length is validated first (a non-positive `n`
is an invalid-argument error; this check needs no other argument), then the
remaining steps run in the order of the spec. -/
def dispatch (v : Variant) (t : Tensor) (n? : Option Int) (dim : Int)
    (norm? : Option String) : Except FFTError EngineCall :=
  match n? with
  | some nv =>
    if nv ≤ 0 then Except.error FFTError.invalidArgError
    else dispatchResolved v t (some nv.toNat) dim norm?
  | none => dispatchResolved v t none dim norm?

/-- Modelled from the spec: the engine instance whose observable behaviour is
the dispatch contract: each operation resolves its arguments with `dispatch`
for its variant and returns the output tensor of the resolved call. -/
def specEngine : FFTEngine :=
  ⟨fun t n d m => (dispatch fftVariant t n d m).map EngineCall.out,
   fun t n d m => (dispatch ifftVariant t n d m).map EngineCall.out,
   fun t n d m => (dispatch rfftVariant t n d m).map EngineCall.out,
   fun t n d m => (dispatch irfftVariant t n d m).map EngineCall.out,
   fun t n d m => (dispatch hfftVariant t n d m).map EngineCall.out,
   fun t n d m => (dispatch ihfftVariant t n d m).map EngineCall.out⟩

/-- Modelled from the spec: tensors live in a store addressed by naturals; a
call reads its input from the store and leaves the store untouched.  This
makes the absence of mutation and of retained state expressible: the header
receives the tensor by constant reference and only returns a fresh value. -/
def Store : Type := Nat → Tensor

/-- Stateful view of a `torch::fft::fft` call on the tensor at address `p`. -/
def fftCall (E : FFTEngine) (σ : Store) (p : Nat) (n : Option Int)
    (dim : Int) (norm : Option String) : Store × Except FFTError Tensor :=
  (σ, fft E (σ p) n dim norm)

/-- Stateful view of a `torch::fft::ifft` call on the tensor at address `p`. -/
def ifftCall (E : FFTEngine) (σ : Store) (p : Nat) (n : Option Int)
    (dim : Int) (norm : Option String) : Store × Except FFTError Tensor :=
  (σ, ifft E (σ p) n dim norm)

/-- Stateful view of a `torch::fft::rfft` call on the tensor at address `p`. -/
def rfftCall (E : FFTEngine) (σ : Store) (p : Nat) (n : Option Int)
    (dim : Int) (norm : Option String) : Store × Except FFTError Tensor :=
  (σ, rfft E (σ p) n dim norm)

/-- Stateful view of a `torch::fft::irfft` call on the tensor at address `p`. -/
def irfftCall (E : FFTEngine) (σ : Store) (p : Nat) (n : Option Int)
    (dim : Int) (norm : Option String) : Store × Except FFTError Tensor :=
  (σ, irfft E (σ p) n dim norm)

/-- Stateful view of a `torch::fft::hfft` call on the tensor at address `p`. -/
def hfftCall (E : FFTEngine) (σ : Store) (p : Nat) (n : Option Int)
    (dim : Int) (norm : Option String) : Store × Except FFTError Tensor :=
  (σ, hfft E (σ p) n dim norm)

/-- Stateful view of a `torch::fft::ihfft` call on the tensor at address `p`. -/
def ihfftCall (E : FFTEngine) (σ : Store) (p : Nat) (n : Option Int)
    (dim : Int) (norm : Option String) : Store × Except FFTError Tensor :=
  (σ, ihfft E (σ p) n dim norm)

/-- Modelled from the spec: the primitive n-th root of unity used as the
transform kernel of the engine. -/
noncomputable def dftKernel (n : ℕ) : ℂ :=
  Complex.exp (2 * (Real.pi : ℂ) * Complex.I / (n : ℂ))

/-- Modelled from the spec: value semantics of the engine call behind `fft`
on a one-dimensional signal of length n with the default (backward)
normalization: the full forward DFT, unscaled. -/
noncomputable def fftV (n : ℕ) (x : Fin n → ℂ) : Fin n → ℂ :=
  fun k => ∑ j : Fin n, x j * dftKernel n ^ (-((j.val : ℤ) * (k.val : ℤ)))

/-- Modelled from the spec: value semantics of the engine call behind `ifft`
with the default (backward) normalization: the inverse DFT, scaled by 1/n. -/
noncomputable def ifftV (n : ℕ) (X : Fin n → ℂ) : Fin n → ℂ :=
  fun j => (n : ℂ)⁻¹ * ∑ k : Fin n, X k * dftKernel n ^ ((j.val : ℤ) * (k.val : ℤ))

/-- Modelled from the spec: value semantics of the engine call behind `rfft`
on a real signal of length n: the first n/2 + 1 coefficients of its full
forward DFT (the onesided non-redundant half). -/
noncomputable def rfftV (n : ℕ) (x : Fin n → ℝ) : Fin (n / 2 + 1) → ℂ :=
  fun k => ∑ j : Fin n, (x j : ℂ) * dftKernel n ^ (-((j.val : ℤ) * (k.val : ℤ)))

/-- Modelled from the spec: reconstruction of a full length-n spectrum from a
onesided half under Hermitian symmetry, the glossary rule X k = conj (X (n - k)). -/
noncomputable def hermExtend (n : ℕ) (g : Fin (n / 2 + 1) → ℂ) : Fin n → ℂ :=
  fun k =>
    if h : k.val ≤ n / 2 then g ⟨k.val, by omega⟩
    else (starRingEnd ℂ) (g ⟨n - k.val, by have := k.isLt; omega⟩)

/-- Modelled from the spec: value semantics of the engine call behind `irfft`
with explicit output length n and default normalization: extend the onesided
input to a full spectrum by Hermitian symmetry, apply the scaled inverse DFT,
and return the real part. -/
noncomputable def irfftV (n : ℕ) (g : Fin (n / 2 + 1) → ℂ) : Fin n → ℝ :=
  fun j => (ifftV n (hermExtend n g) j).re

lemma dftKernel_ne_zero (n : ℕ) : dftKernel n ≠ 0 :=
  Complex.exp_ne_zero _

lemma isPrimitiveRoot_dftKernel (n : ℕ) (hn : n ≠ 0) :
    IsPrimitiveRoot (dftKernel n) n :=
  Complex.isPrimitiveRoot_exp n hn

lemma dftKernel_zpow_n (n : ℕ) (hn : n ≠ 0) : dftKernel n ^ (n : ℤ) = 1 :=
  (isPrimitiveRoot_dftKernel n hn).zpow_eq_one

/-- Shifting the exponent by an integer multiple of n does not change a power
of the kernel. -/
lemma dftKernel_zpow_add_mul (n : ℕ) (hn : n ≠ 0) (a j : ℤ) :
    dftKernel n ^ (a + j * (n : ℤ)) = dftKernel n ^ a := by
  rw [zpow_add₀ (dftKernel_ne_zero n), mul_comm j (n : ℤ), zpow_mul,
    dftKernel_zpow_n n hn, one_zpow, mul_one]

/-- Orthogonality of the kernel characters: the sum of the a-th character over
one period is n when n divides a and zero otherwise. -/
lemma sum_dftKernel_zpow (n : ℕ) (hn : n ≠ 0) (a : ℤ) :
    ∑ k : Fin n, dftKernel n ^ (a * (k.val : ℤ)) =
      if (n : ℤ) ∣ a then (n : ℂ) else 0 := by
  have hprim := isPrimitiveRoot_dftKernel n hn
  have hpow : ∀ k : Fin n, dftKernel n ^ (a * (k.val : ℤ)) =
      (dftKernel n ^ a) ^ (k.val : ℕ) := by
    intro k
    rw [zpow_mul, zpow_natCast]
  simp only [hpow]
  rw [Fin.sum_univ_eq_sum_range (fun i => (dftKernel n ^ a) ^ i) n]
  by_cases hdvd : (n : ℤ) ∣ a
  · have h1 : dftKernel n ^ a = 1 := (hprim.zpow_eq_one_iff_dvd a).mpr hdvd
    simp [h1, hdvd]
  · have h1 : dftKernel n ^ a ≠ 1 := fun h => hdvd ((hprim.zpow_eq_one_iff_dvd a).mp h)
    have hN : (dftKernel n ^ a) ^ n = 1 := by
      rw [← zpow_natCast (dftKernel n ^ a) n, ← zpow_mul, mul_comm a (n : ℤ),
        zpow_mul, dftKernel_zpow_n n hn, one_zpow]
    rw [geom_sum_eq h1 n, hN, if_neg hdvd]
    simp

/-- For indices below n, divisibility of their difference by n forces
equality. -/
lemma fin_dvd_sub_iff (n : ℕ) (j m : Fin n) :
    (n : ℤ) ∣ ((j.val : ℤ) - (m.val : ℤ)) ↔ m = j := by
  constructor
  · intro hdvd
    have hz : (j.val : ℤ) - (m.val : ℤ) = 0 := by
      refine Int.eq_zero_of_dvd_of_natAbs_lt_natAbs hdvd ?_
      have hj := j.isLt
      have hm := m.isLt
      omega
    have : j.val = m.val := by omega
    exact (Fin.ext this).symm
  · intro h
    rw [h]
    simp

/-- The scaled inverse DFT recovers every coefficient of the original signal. -/
lemma dft_inversion (n : ℕ) (x : Fin n → ℂ) (j : Fin n) :
    (n : ℂ)⁻¹ * ∑ k : Fin n,
        (∑ m : Fin n, x m * dftKernel n ^ (-((m.val : ℤ) * (k.val : ℤ)))) *
          dftKernel n ^ ((j.val : ℤ) * (k.val : ℤ)) = x j := by
  have hn : n ≠ 0 := j.pos.ne'
  have hcast : (n : ℂ) ≠ 0 := Nat.cast_ne_zero.mpr hn
  have hstep : ∀ k : Fin n,
      (∑ m : Fin n, x m * dftKernel n ^ (-((m.val : ℤ) * (k.val : ℤ)))) *
          dftKernel n ^ ((j.val : ℤ) * (k.val : ℤ)) =
        ∑ m : Fin n, x m * dftKernel n ^ (((j.val : ℤ) - (m.val : ℤ)) * (k.val : ℤ)) := by
    intro k
    rw [Finset.sum_mul]
    refine Finset.sum_congr rfl (fun m _ => ?_)
    rw [mul_assoc, ← zpow_add₀ (dftKernel_ne_zero n)]
    congr 2
    ring
  simp only [hstep]
  rw [Finset.sum_comm]
  have hinner : ∀ m : Fin n,
      ∑ k : Fin n, x m * dftKernel n ^ (((j.val : ℤ) - (m.val : ℤ)) * (k.val : ℤ)) =
        x m * (if (n : ℤ) ∣ ((j.val : ℤ) - (m.val : ℤ)) then (n : ℂ) else 0) := by
    intro m
    rw [← Finset.mul_sum, sum_dftKernel_zpow n hn]
  simp only [hinner, fin_dvd_sub_iff n j]
  rw [Finset.sum_eq_single j (fun m _ hm => by rw [if_neg hm, mul_zero])
    (fun h => absurd (Finset.mem_univ j) h)]
  rw [if_pos rfl]
  field_simp

/-- Conjugating the kernel inverts it. -/
lemma conj_dftKernel (n : ℕ) : (starRingEnd ℂ) (dftKernel n) = (dftKernel n)⁻¹ := by
  rw [dftKernel, ← Complex.exp_conj, ← Complex.exp_neg]
  congr 1
  simp [map_div₀, map_ofNat, Complex.conj_I]
  ring

/-- Conjugating a power of the kernel negates the exponent. -/
lemma conj_dftKernel_zpow (n : ℕ) (a : ℤ) :
    (starRingEnd ℂ) (dftKernel n ^ a) = dftKernel n ^ (-a) := by
  rw [map_zpow₀, conj_dftKernel, inv_zpow, ← zpow_neg]

/-- Hermitian symmetry: extending the onesided rfft output recovers the full
DFT of the real signal. -/
lemma hermExtend_rfftV (n : ℕ) (x : Fin n → ℝ) (k : Fin n) :
    hermExtend n (rfftV n x) k = fftV n (fun m => (x m : ℂ)) k := by
  have hn : n ≠ 0 := k.pos.ne'
  rw [hermExtend]
  split
  · simp only [rfftV, fftV]
  · rename_i h
    simp only [rfftV, fftV, map_sum]
    refine Finset.sum_congr rfl (fun j _ => ?_)
    rw [map_mul, Complex.conj_ofReal, conj_dftKernel_zpow, neg_neg]
    congr 1
    have hk : k.val ≤ n := Nat.le_of_lt k.isLt
    have hcast : ((j.val : ℤ) * (((n - k.val : ℕ)) : ℤ)) =
        -((j.val : ℤ) * (k.val : ℤ)) + (j.val : ℤ) * (n : ℤ) := by
      push_cast [Nat.cast_sub hk]
      ring
    rw [hcast, dftKernel_zpow_add_mul n hn]

/-- Pointwise round trip of the full complex transform pair. -/
lemma ifftV_fftV_apply (n : ℕ) (y : Fin n → ℂ) (j : Fin n) :
    ifftV n (fftV n y) j = y j := by
  simp only [ifftV, fftV]
  exact dft_inversion n y j

/-- An unrecognized normalization symbol used by the concrete checks. -/
def bogusNorm : String := "foo"

/-- A resolved dimension is a valid axis index. -/
lemma resolveDim_lt {rank : Nat} {dim : Int} {d : Nat}
    (h : resolveDim rank dim = some d) : d < rank := by
  simp only [resolveDim] at h
  split at h
  · rename_i hc
    injection h with h2
    omega
  · cases h

/-- The C++ default `dim = -1` resolves to the last axis. -/
lemma resolveDim_neg_one (rank : Nat) (hr : 0 < rank) :
    resolveDim rank (-1) = some (rank - 1) := by
  have hw : wrapDim rank (-1) = -1 + (rank : Int) := by
    simp [wrapDim]
  have ht : ((-1 : Int) + (rank : Int)).toNat = rank - 1 := by omega
  simp only [resolveDim, hw]
  rw [if_pos (by omega), ht]

/-- Anatomy of a successful resolved dispatch: the resolved axis is the one
`resolveDim` gives, the length defaults to the extent there, the
normalization is the parsed one, the element kind matched, and the output is
the input shape with the transformed extent replaced by the sizing rule. -/
lemma dispatchResolved_ok {v : Variant} {t : Tensor} {nv : Option Nat}
    {dim : Int} {norm? : Option String} {c : EngineCall}
    (h : dispatchResolved v t nv dim norm? = Except.ok c) :
    resolveDim t.shape.length dim = some c.dim ∧
    c.n = nv.getD (t.shape.getD c.dim 0) ∧
    parseNorm norm? = some c.norm ∧
    t.dtype = v.inputKind ∧
    c.out = ⟨t.shape.set c.dim (outLenFor v c.n), v.outputKind⟩ := by
  unfold dispatchResolved at h
  split at h
  · cases h
  · rename_i d hd
    split at h
    · cases h
    · rename_i nm hnm
      split at h
      · cases h
      · rename_i hdt
        injection h with h2
        subst h2
        exact ⟨hd, rfl, hnm, not_not.mp hdt, rfl⟩

/-- A successful dispatch factors through a successful resolved dispatch,
with an absent length staying absent. -/
lemma dispatch_ok {v : Variant} {t : Tensor} {n? : Option Int} {dim : Int}
    {norm? : Option String} {c : EngineCall}
    (h : dispatch v t n? dim norm? = Except.ok c) :
    ∃ nv : Option Nat, (n? = none → nv = none) ∧
      dispatchResolved v t nv dim norm? = Except.ok c := by
  unfold dispatch at h
  split at h
  · rename_i nvi
    split at h
    · cases h
    · exact ⟨some nvi.toNat, fun hh => absurd hh (by simp), h⟩
  · exact ⟨none, fun _ => rfl, h⟩

/-- C10: each of the six entry points returns exactly the result of the
single corresponding engine call with the arguments passed through unchanged,
for every engine and every argument value; and a call that omits the optional
arguments is the same engine call at the C++ default argument values
`n = nullopt`, `dim = -1`, `norm = nullopt`.  The dispatcher layer performs
no further defaulting, validation, or shape adjustment. -/
theorem dispatcher_pass_through (E : FFTEngine) (t : Tensor) (n : Option Int)
    (dim : Int) (norm : Option String) :
    fft E t n dim norm = E.fft_fft t n dim norm ∧
    ifft E t n dim norm = E.fft_ifft t n dim norm ∧
    rfft E t n dim norm = E.fft_rfft t n dim norm ∧
    irfft E t n dim norm = E.fft_irfft t n dim norm ∧
    hfft E t n dim norm = E.fft_hfft t n dim norm ∧
    ihfft E t n dim norm = E.fft_ihfft t n dim norm ∧
    fft E t = E.fft_fft t none (-1) none ∧
    ifft E t = E.fft_ifft t none (-1) none ∧
    rfft E t = E.fft_rfft t none (-1) none ∧
    irfft E t = E.fft_irfft t none (-1) none ∧
    hfft E t = E.fft_hfft t none (-1) none ∧
    ihfft E t = E.fft_ihfft t none (-1) none :=
  ⟨rfl, rfl, rfl, rfl, rfl, rfl, rfl, rfl, rfl, rfl, rfl, rfl⟩

/-- C8: every entry point is a pure mapping: viewed as an action on a store
of tensors, a call leaves the store exactly as it was, and its result is a
function of the addressed input tensor and the arguments alone, so no state
is retained between calls and the input array is never mutated. -/
theorem entry_points_pure (E : FFTEngine) (σ : Store) (p : Nat)
    (n : Option Int) (dim : Int) (norm : Option String) :
    (fftCall E σ p n dim norm).1 = σ ∧
    (fftCall E σ p n dim norm).2 = fft E (σ p) n dim norm ∧
    (ifftCall E σ p n dim norm).1 = σ ∧
    (ifftCall E σ p n dim norm).2 = ifft E (σ p) n dim norm ∧
    (rfftCall E σ p n dim norm).1 = σ ∧
    (rfftCall E σ p n dim norm).2 = rfft E (σ p) n dim norm ∧
    (irfftCall E σ p n dim norm).1 = σ ∧
    (irfftCall E σ p n dim norm).2 = irfft E (σ p) n dim norm ∧
    (hfftCall E σ p n dim norm).1 = σ ∧
    (hfftCall E σ p n dim norm).2 = hfft E (σ p) n dim norm ∧
    (ihfftCall E σ p n dim norm).1 = σ ∧
    (ihfftCall E σ p n dim norm).2 = ihfft E (σ p) n dim norm :=
  ⟨rfl, rfl, rfl, rfl, rfl, rfl, rfl, rfl, rfl, rfl, rfl, rfl⟩

/-- C3: for every complex input of length N, the inverse transform of the
forward transform is the original signal; in the exact-arithmetic model of
the engine the round trip is exact, hence within any floating-point
tolerance. -/
theorem ifft_fft_roundtrip (n : ℕ) (c : Fin n → ℂ) :
    ifftV n (fftV n c) = c :=
  funext (fun j => ifftV_fftV_apply n c j)

/-- C2: for every real input of length N, the inverse real transform at
explicit length N of the onesided real transform at length N is the original
signal; in the exact-arithmetic model of the engine the round trip is exact,
hence within any floating-point tolerance. -/
theorem irfft_rfft_roundtrip (n : ℕ) (r : Fin n → ℝ) :
    irfftV n (rfftV n r) = r := by
  funext j
  have hext : hermExtend n (rfftV n r) = fftV n (fun m => (r m : ℂ)) :=
    funext (fun k => hermExtend_rfftV n r k)
  show (ifftV n (hermExtend n (rfftV n r)) j).re = r j
  rw [hext, ifftV_fftV_apply]
  exact Complex.ofReal_re (r j)

/-- C4: for every entry point, input tensor, dimension and normalization
argument, a supplied non-positive length is rejected with the
invalid-argument error; no engine call is produced. -/
theorem nonpositive_n_invalid (t : Tensor) (nv : Int) (dim : Int)
    (norm? : Option String) (h : nv ≤ 0) :
    fft specEngine t (some nv) dim norm? = Except.error FFTError.invalidArgError ∧
    ifft specEngine t (some nv) dim norm? = Except.error FFTError.invalidArgError ∧
    rfft specEngine t (some nv) dim norm? = Except.error FFTError.invalidArgError ∧
    irfft specEngine t (some nv) dim norm? = Except.error FFTError.invalidArgError ∧
    hfft specEngine t (some nv) dim norm? = Except.error FFTError.invalidArgError ∧
    ihfft specEngine t (some nv) dim norm? = Except.error FFTError.invalidArgError := by
  have hdisp : ∀ v : Variant, dispatch v t (some nv) dim norm? =
      Except.error FFTError.invalidArgError := by
    intro v
    simp [dispatch, h]
  exact ⟨by simp [fft, specEngine, hdisp, Except.map],
    by simp [ifft, specEngine, hdisp, Except.map],
    by simp [rfft, specEngine, hdisp, Except.map],
    by simp [irfft, specEngine, hdisp, Except.map],
    by simp [hfft, specEngine, hdisp, Except.map],
    by simp [ihfft, specEngine, hdisp, Except.map]⟩

/-- Witness for C4 at the two lengths of the spec scenario, 0 and -5. -/
theorem nonpositive_n_invalid_witness :
    (fft specEngine ⟨[4], DType.complex⟩ (some 0) (-1) none =
        Except.error FFTError.invalidArgError ∧
      ifft specEngine ⟨[4], DType.complex⟩ (some 0) (-1) none =
        Except.error FFTError.invalidArgError ∧
      rfft specEngine ⟨[4], DType.complex⟩ (some 0) (-1) none =
        Except.error FFTError.invalidArgError ∧
      irfft specEngine ⟨[4], DType.complex⟩ (some 0) (-1) none =
        Except.error FFTError.invalidArgError ∧
      hfft specEngine ⟨[4], DType.complex⟩ (some 0) (-1) none =
        Except.error FFTError.invalidArgError ∧
      ihfft specEngine ⟨[4], DType.complex⟩ (some 0) (-1) none =
        Except.error FFTError.invalidArgError) ∧
    fft specEngine ⟨[4], DType.complex⟩ (some (-5)) (-1) none =
      Except.error FFTError.invalidArgError :=
  ⟨nonpositive_n_invalid ⟨[4], DType.complex⟩ 0 (-1) none (by decide),
   (nonpositive_n_invalid ⟨[4], DType.complex⟩ (-5) (-1) none (by decide)).1⟩

/-- C5: for every entry point, whenever the supplied dimension does not
resolve (after counting negative indices from the last axis) to a valid axis
`0 ≤ d < rank`, and the supplied length is not itself rejected first, the
call fails with the shape error. -/
theorem dim_out_of_range_shape_error (t : Tensor) (n? : Option Int)
    (dim : Int) (norm? : Option String)
    (hn : ∀ nv ∈ n?, 0 < nv)
    (hd : resolveDim t.shape.length dim = none) :
    fft specEngine t n? dim norm? = Except.error FFTError.shapeError ∧
    ifft specEngine t n? dim norm? = Except.error FFTError.shapeError ∧
    rfft specEngine t n? dim norm? = Except.error FFTError.shapeError ∧
    irfft specEngine t n? dim norm? = Except.error FFTError.shapeError ∧
    hfft specEngine t n? dim norm? = Except.error FFTError.shapeError ∧
    ihfft specEngine t n? dim norm? = Except.error FFTError.shapeError := by
  have hres : ∀ (v : Variant) (nv : Option Nat),
      dispatchResolved v t nv dim norm? = Except.error FFTError.shapeError := by
    intro v nv
    unfold dispatchResolved
    rw [hd]
  have hdisp : ∀ v : Variant, dispatch v t n? dim norm? =
      Except.error FFTError.shapeError := by
    intro v
    cases n? with
    | none =>
      simpa [dispatch] using hres v none
    | some nvi =>
      have hpos : 0 < nvi := hn nvi rfl
      simp only [dispatch]
      rw [if_neg (by omega)]
      exact hres v _
  exact ⟨by simp [fft, specEngine, hdisp, Except.map],
    by simp [ifft, specEngine, hdisp, Except.map],
    by simp [rfft, specEngine, hdisp, Except.map],
    by simp [irfft, specEngine, hdisp, Except.map],
    by simp [hfft, specEngine, hdisp, Except.map],
    by simp [ihfft, specEngine, hdisp, Except.map]⟩

/-- Witness for C5: dim 5 on a rank-2 tensor is a shape error. -/
theorem dim_out_of_range_shape_error_witness :
    fft specEngine ⟨[2, 3], DType.complex⟩ none 5 none =
        Except.error FFTError.shapeError ∧
    ifft specEngine ⟨[2, 3], DType.complex⟩ none 5 none =
        Except.error FFTError.shapeError ∧
    rfft specEngine ⟨[2, 3], DType.complex⟩ none 5 none =
        Except.error FFTError.shapeError ∧
    irfft specEngine ⟨[2, 3], DType.complex⟩ none 5 none =
        Except.error FFTError.shapeError ∧
    hfft specEngine ⟨[2, 3], DType.complex⟩ none 5 none =
        Except.error FFTError.shapeError ∧
    ihfft specEngine ⟨[2, 3], DType.complex⟩ none 5 none =
        Except.error FFTError.shapeError :=
  dim_out_of_range_shape_error ⟨[2, 3], DType.complex⟩ none 5 none
    (by simp) (by decide)

/-- C1: for every real input tensor with the length argument absent and a
dimension resolving to axis `d` with extent `N` there, `rfft` succeeds and
returns a tensor of complex element kind whose extent along `d` is
`N / 2 + 1`. -/
theorem rfft_output_onesided (t : Tensor) (dim : Int) (d : Nat)
    (hd : resolveDim t.shape.length dim = some d)
    (hk : t.dtype = DType.real) :
    ∃ u : Tensor, rfft specEngine t none dim none = Except.ok u ∧
      u.dtype = DType.complex ∧
      u.shape.getD d 0 = t.shape.getD d 0 / 2 + 1 := by
  have hdlt : d < t.shape.length := resolveDim_lt hd
  refine ⟨⟨t.shape.set d (t.shape.getD d 0 / 2 + 1), DType.complex⟩, ?_, rfl, ?_⟩
  · show (dispatch rfftVariant t none dim none).map EngineCall.out = _
    simp [dispatch, dispatchResolved, hd, parseNorm, hk, rfftVariant,
      outLenFor, Except.map]
  · simp [List.getD_eq_getElem?_getD, List.getElem?_set_self hdlt]

/-- Witness for C1 on a concrete rank-2 real tensor of extent 4 along the
last axis. -/
theorem rfft_output_onesided_witness :
    ∃ u : Tensor, rfft specEngine ⟨[5, 4], DType.real⟩ none (-1) none = Except.ok u ∧
      u.dtype = DType.complex ∧
      u.shape.getD 1 0 = 3 :=
  rfft_output_onesided ⟨[5, 4], DType.real⟩ (-1) 1 (by decide) rfl

/-- C6: for every variant and arguments, an absent normalization argument
resolves to backward (any successful call without it carries the backward
symbol), and a supplied symbol that is not one of the three recognized ones
is rejected with the invalid-argument error (whenever the supplied length and
dimension are not themselves rejected first). -/
theorem norm_argument_resolution (v : Variant) (t : Tensor) (n? : Option Int)
    (dim : Int) (s : String) (c : EngineCall) (d : Nat)
    (hok : dispatch v t n? dim none = Except.ok c)
    (hbad : parseNormSym s = none)
    (hn : ∀ nv ∈ n?, 0 < nv)
    (hd : resolveDim t.shape.length dim = some d) :
    c.norm = Norm.backward ∧
    dispatch v t n? dim (some s) = Except.error FFTError.invalidArgError := by
  constructor
  · obtain ⟨nv, -, hres⟩ := dispatch_ok hok
    have hnm := (dispatchResolved_ok hres).2.2.1
    simp [parseNorm] at hnm
    exact hnm.symm
  · have hres : ∀ nv : Option Nat,
        dispatchResolved v t nv dim (some s) =
          Except.error FFTError.invalidArgError := by
      intro nv
      unfold dispatchResolved
      rw [hd]
      simp [parseNorm, hbad]
    cases n? with
    | none =>
      simpa [dispatch] using hres none
    | some nvi =>
      have hpos : 0 < nvi := hn nvi rfl
      simp only [dispatch]
      rw [if_neg (by omega)]
      exact hres _

/-- Witness for C6 at a concrete complex tensor, the fft variant, and the
unrecognized symbol `bogusNorm`. -/
theorem norm_argument_resolution_witness :
    (⟨4, 0, Norm.backward, ⟨[4], DType.complex⟩⟩ : EngineCall).norm = Norm.backward ∧
    dispatch fftVariant ⟨[4], DType.complex⟩ none (-1) (some bogusNorm) =
      Except.error FFTError.invalidArgError :=
  norm_argument_resolution fftVariant ⟨[4], DType.complex⟩ none (-1) bogusNorm
    ⟨4, 0, Norm.backward, ⟨[4], DType.complex⟩⟩ 0 rfl (by decide) (by simp)
    (by decide)

/-- C7: every successful call keeps the rank and every axis extent other than
the resolved dimension unchanged; only the extent along the resolved
dimension changes, to the per-variant sizing rule, and the element kind
becomes the per-variant output kind. -/
theorem output_shape_frame (v : Variant) (t : Tensor) (n? : Option Int)
    (dim : Int) (norm? : Option String) (c : EngineCall)
    (h : dispatch v t n? dim norm? = Except.ok c) :
    c.out.shape.length = t.shape.length ∧
    (∀ i, i ≠ c.dim → c.out.shape.getD i 0 = t.shape.getD i 0) ∧
    c.out.shape.getD c.dim 0 = outLenFor v c.n ∧
    c.out.dtype = v.outputKind := by
  obtain ⟨nv, -, hres⟩ := dispatch_ok h
  obtain ⟨hd, -, -, -, hout⟩ := dispatchResolved_ok hres
  have hdlt : c.dim < t.shape.length := resolveDim_lt hd
  rw [hout]
  refine ⟨by simp, ?_, ?_, rfl⟩
  · intro i hi
    simp [List.getD_eq_getElem?_getD, List.getElem?_set_ne (Ne.symm hi)]
  · simp [List.getD_eq_getElem?_getD, List.getElem?_set_self hdlt]

/-- Witness for C7: rfft on a rank-2 real tensor with explicit length 6
along axis 0 keeps axis 1 untouched. -/
theorem output_shape_frame_witness :
    (⟨6, 0, Norm.backward, ⟨[4, 3], DType.complex⟩⟩ : EngineCall).out.shape.length =
        (Tensor.mk [5, 3] DType.real).shape.length ∧
    (∀ i, i ≠ (⟨6, 0, Norm.backward, ⟨[4, 3], DType.complex⟩⟩ : EngineCall).dim →
      (⟨6, 0, Norm.backward, ⟨[4, 3], DType.complex⟩⟩ : EngineCall).out.shape.getD i 0 =
        (Tensor.mk [5, 3] DType.real).shape.getD i 0) ∧
    (⟨6, 0, Norm.backward, ⟨[4, 3], DType.complex⟩⟩ : EngineCall).out.shape.getD
        (⟨6, 0, Norm.backward, ⟨[4, 3], DType.complex⟩⟩ : EngineCall).dim 0 =
      outLenFor rfftVariant (⟨6, 0, Norm.backward, ⟨[4, 3], DType.complex⟩⟩ : EngineCall).n ∧
    (⟨6, 0, Norm.backward, ⟨[4, 3], DType.complex⟩⟩ : EngineCall).out.dtype =
      rfftVariant.outputKind :=
  output_shape_frame rfftVariant ⟨[5, 3], DType.real⟩ (some 6) 0 none
    ⟨6, 0, Norm.backward, ⟨[4, 3], DType.complex⟩⟩ rfl

/-- C9: when the length argument is absent it defaults to the input extent
along the resolved dimension, and the C++ default dimension -1 resolves to
the last axis of any non-empty rank. -/
theorem default_length_and_dim (v : Variant) (t : Tensor) (dim : Int)
    (norm? : Option String) (c : EngineCall) (rank : Nat)
    (h : dispatch v t none dim norm? = Except.ok c) (hr : 0 < rank) :
    c.n = t.shape.getD c.dim 0 ∧
    resolveDim rank (-1) = some (rank - 1) := by
  obtain ⟨nv, hnone, hres⟩ := dispatch_ok h
  obtain ⟨-, hcn, -, -, -⟩ := dispatchResolved_ok hres
  rw [hnone rfl] at hcn
  exact ⟨by simpa using hcn, resolveDim_neg_one rank hr⟩

/-- Witness for C9 at a concrete length-3 complex tensor and rank 2. -/
theorem default_length_and_dim_witness :
    (⟨3, 0, Norm.backward, ⟨[3], DType.complex⟩⟩ : EngineCall).n =
        (Tensor.mk [3] DType.complex).shape.getD
          (⟨3, 0, Norm.backward, ⟨[3], DType.complex⟩⟩ : EngineCall).dim 0 ∧
    resolveDim 2 (-1) = some 1 :=
  default_length_and_dim fftVariant ⟨[3], DType.complex⟩ (-1) none
    ⟨3, 0, Norm.backward, ⟨[3], DType.complex⟩⟩ 2 (by rfl) (by decide)

end TorchFFT
